import Mathlib

/-!
Verification development for the SecureP2P chat tool (src/secure_chat.py).

The program is modelled at byte level: a received byte string is a
`List Nat` (each element < 256), a decoded Python `str` is a `List Nat` of
Unicode code points.  The external GPG subprocess used for encryption and
decryption is modelled as an oracle `decrypt : List Nat → Option (List Nat)`
(`none` models a nonzero gpg exit status, i.e. `CalledProcessError`).
-/

namespace SecureChat

/-- Continuation byte of a UTF-8 sequence: 0x80..0xBF. -/
def isCont (b : Nat) : Prop := 128 ≤ b ∧ b ≤ 191

instance (b : Nat) : Decidable (isCont b) := by
  unfold isCont; infer_instance

/-- Decode one code point from the front of a byte string, returning the
code point and the remaining bytes, with exactly the acceptance set of
Python `bytes.decode('utf-8')` (RFC 3629): ASCII lead bytes, 2-byte leads
0xC2..0xDF, 3-byte leads 0xE0..0xEF excluding overlong forms (0xE0 requires
a second byte ≥ 0xA0) and surrogates (0xED requires a second byte ≤ 0x9F),
4-byte leads 0xF0..0xF4 excluding overlong forms (0xF0 requires a second
byte ≥ 0x90) and values above U+10FFFF (0xF4 requires a second byte
≤ 0x8F); every continuation byte must be 0x80..0xBF. -/
def utf8DecodeOne : List Nat → Option (Nat × List Nat)
  | [] => none
  | b :: rest =>
    if b ≤ 127 then some (b, rest)
    else if 194 ≤ b ∧ b ≤ 223 then
      if 1 ≤ rest.length ∧ isCont (rest.getD 0 0) then
        some ((b - 192) * 64 + (rest.getD 0 0 - 128), rest.drop 1)
      else none
    else if 224 ≤ b ∧ b ≤ 239 then
      if 2 ≤ rest.length ∧ isCont (rest.getD 0 0) ∧ isCont (rest.getD 1 0)
          ∧ (b = 224 → 160 ≤ rest.getD 0 0) ∧ (b = 237 → rest.getD 0 0 ≤ 159) then
        some ((b - 224) * 4096 + (rest.getD 0 0 - 128) * 64 + (rest.getD 1 0 - 128), rest.drop 2)
      else none
    else if 240 ≤ b ∧ b ≤ 244 then
      if 3 ≤ rest.length ∧ isCont (rest.getD 0 0) ∧ isCont (rest.getD 1 0) ∧ isCont (rest.getD 2 0)
          ∧ (b = 240 → 144 ≤ rest.getD 0 0) ∧ (b = 244 → rest.getD 0 0 ≤ 143) then
        some ((b - 240) * 262144 + (rest.getD 0 0 - 128) * 4096 + (rest.getD 1 0 - 128) * 64
              + (rest.getD 2 0 - 128), rest.drop 3)
      else none
    else none

/-- Iterated decoding with a fuel bound on the number of code points; each
step consumes at least one byte, so fuel `l.length` is always sufficient. -/
def utf8DecodeAux : Nat → List Nat → Option (List Nat)
  | _, [] => some []
  | 0, _ :: _ => none
  | fuel + 1, b :: rest =>
    (utf8DecodeOne (b :: rest)).bind
      (fun cr => (utf8DecodeAux fuel cr.2).map (fun cs => cr.1 :: cs))

/-- Strict UTF-8 decoding of a byte string into code points, modelling
Python `bytes.decode('utf-8')`; `none` models `UnicodeDecodeError`. -/
def utf8Decode (l : List Nat) : Option (List Nat) := utf8DecodeAux l.length l

/-- UTF-8 encoding of one code point (Python `str.encode('utf-8')`). -/
def utf8EncodeChar (c : Nat) : List Nat :=
  if c ≤ 127 then [c]
  else if c ≤ 2047 then [192 + c / 64, 128 + c % 64]
  else if c ≤ 65535 then [224 + c / 4096, 128 + (c / 64) % 64, 128 + c % 64]
  else [240 + c / 262144, 128 + (c / 4096) % 64, 128 + (c / 64) % 64, 128 + c % 64]

/-- UTF-8 encoding of a string of code points. -/
def utf8Encode (s : List Nat) : List Nat := (s.map utf8EncodeChar).flatten

/-- Python `str.partition(sep)` on code points: `(head, found, tail)` where
`found` records whether the separator occurred (Python returns the separator
itself as middle component, or the empty string when absent). -/
def pyPartition (sep : Nat) : List Nat → List Nat × Bool × List Nat
  | [] => ([], false, [])
  | c :: rest =>
    if c = sep then ([], true, rest)
    else
      match pyPartition sep rest with
      | (a, f, b) => (c :: a, f, b)

/-- First split of a string at a separator: `some (before, after)` when the
separator occurs, `none` otherwise. -/
def splitFirst (sep : Nat) : List Nat → Option (List Nat × List Nat)
  | [] => none
  | c :: rest =>
    if c = sep then some ([], rest)
    else
      match splitFirst sep rest with
      | none => none
      | some (a, b) => some (c :: a, b)

/-- Python `str.split(sep, maxsplit)`: split at most `n` times from the left. -/
def splitAtMost (sep : Nat) : Nat → List Nat → List (List Nat)
  | 0, s => [s]
  | n + 1, s =>
    match splitFirst sep s with
    | none => [s]
    | some (a, b) => a :: splitAtMost sep n b

/-- Python `str.split(sep)` with no maxsplit: each split consumes one
separator character, so `s.length` splits always suffice as fuel. -/
def splitAll (sep : Nat) (s : List Nat) : List (List Nat) := splitAtMost sep s.length s

/-! ## Data model

The spec's Frame: a text message (raw ciphertext payload) or a file transfer
(filename plus ciphertext payload).  In the code the filename is a Python
`str` (code points); the payload is bytes. -/

/-- Kind of a transported unit (spec section 3). -/
inductive FrameKind
  | textMessage
  | fileTransfer
  deriving DecidableEq, Repr

/-- A Frame: `filename` is empty for `textMessage`. -/
structure Frame where
  kind : FrameKind
  filename : List Nat
  payload : List Nat
  deriving DecidableEq, Repr

/-- Code points of the literal `"FILE:"` header tag (lines 141, 215 of
secure_chat.py); its UTF-8 bytes are the same values. -/
def fileTag : List Nat := [70, 73, 76, 69, 58]

/-- Code points of the default filename `"received_file"` (line 145). -/
def receivedFile : List Nat := [114, 101, 99, 101, 105, 118, 101, 100, 95, 102, 105, 108, 101]

/-! ## Send path (lines 215-217 and 224-229 of secure_chat.py)

For a file, the program sends `f"FILE:{basename}:\n".encode('utf-8')`
followed immediately by the armored ciphertext.  For a text message it
sends the raw ciphertext bytes with no framing at all. -/

/-- Wire bytes the send loop writes for one frame:
line 217 `connection.sendall(header + encrypted_data)` for a file with
`header = f"FILE:{basename}:\n".encode('utf-8')` (line 215), and
line 229 `connection.sendall(cipher_bytes)` for a text message. -/
def encodeFrame (f : Frame) : List Nat :=
  match f.kind with
  | .textMessage => f.payload
  | .fileTransfer => fileTag ++ utf8Encode f.filename ++ [58, 10] ++ f.payload

/-! ## Receive path (receive_thread_func, lines 124-175) -/

/-- Line 136-141 dispatch: a chunk is treated as a file transfer exactly when
it decodes as UTF-8 and the decoded text starts with `"FILE:"`. -/
def isFileChunk (d : List Nat) : Bool :=
  match utf8Decode d with
  | some t => fileTag.isPrefixOf t
  | none => false

/-- Line 144: `header, sep, armored = text.partition("\n")`, keeping only the
header component. -/
def fileHeader (t : List Nat) : List Nat := (pyPartition 10 t).1

/-- Lines 145-148: `filename = "received_file"`,
`header_parts = header.split(":", 2)`,
`if len(header_parts) >= 2: filename = header_parts[1]`. -/
def headerFilename (t : List Nat) : List Nat :=
  if 2 ≤ (splitAtMost 58 2 (fileHeader t)).length then
    (splitAtMost 58 2 (fileHeader t)).getD 1 []
  else receivedFile

/-- Line 150 condition `armored == "" and sep == "\n"`: the newline was found
but nothing of the armored body followed it in this chunk. -/
def fileNeedsMore (t : List Nat) : Bool :=
  match pyPartition 10 t with
  | (_, found, armored) => armored = [] && found

/-- Line 154: `cipher_bytes = data[len(header)+1:]` — the slice index is the
header's length in code points, applied to the raw byte string `data`. -/
def fileCipher (d t : List Nat) : List Nat := d.drop ((fileHeader t).length + 1)

/-- Observable step of the receive loop. -/
inductive Event
  | fileSaved (filename : List Nat) (content : List Nat)
  | fileDecryptFailed (filename : List Nat)
  | textShown (plain : List Nat)
  | decryptFailed
  | peerClosed
  | recvError
  deriving DecidableEq, Repr

/-- How the receive thread ends on a given trace of reads. -/
inductive Outcome
  /-- Loop exited via `break`: `connection.close()` then `os._exit(code)`
  (lines 171-175). -/
  | exited (code : Nat)
  /-- An exception escaped the `while` loop uncaught (the bare `recv` at
  line 152 or the bare `.decode('utf-8')` at line 153): the thread dies
  without closing the connection and without exiting the process. -/
  | crashed
  /-- The trace is exhausted while the loop still wants to read: the real
  program blocks in `recv`. -/
  | blocked
  deriving DecidableEq, Repr

/-- One result of a `connection.recv(...)` call: a byte chunk (empty means
the peer closed the stream) or a raised socket exception. -/
inductive RecvResult
  | chunk (data : List Nat)
  | err
  deriving DecidableEq, Repr

/-- Lines 157-163: run `gpg --decrypt -o filename` over the sliced cipher
bytes; the subprocess outcome is the `decrypt` oracle's value. -/
def fileEvent (decrypt : List Nat → Option (List Nat)) (d t : List Nat) : Event :=
  match decrypt (fileCipher d t) with
  | some content => .fileSaved (headerFilename t) content
  | none => .fileDecryptFailed (headerFilename t)

/-- Lines 165-170: `plain = decrypt_message(data)` over the whole chunk,
printed on success, error notice on failure. -/
def textEvent (decrypt : List Nat → Option (List Nat)) (d : List Nat) : Event :=
  match decrypt d with
  | some plain => .textShown plain
  | none => .decryptFailed

/-- The receive loop `receive_thread_func` (lines 124-175), driven by the
trace of `recv` results.  Each iteration consumes one trace element at
line 127; the file branch may consume a second one at line 152
(`more_data = connection.recv(65536)`), whose decoded value is assigned to
`armored` and then never used — only its failure modes are observable. -/
def receiveLoop (decrypt : List Nat → Option (List Nat)) :
    List RecvResult → List Event × Outcome
  | [] => ([], .blocked)
  | .err :: _ => ([.recvError], .exited 0)
  | .chunk d :: rest =>
    if d = [] then ([.peerClosed], .exited 0)
    else
      match utf8Decode d with
      | some t =>
        if fileTag.isPrefixOf t then
          if fileNeedsMore t then
            match rest with
            | [] => ([], .blocked)
            | .err :: _ => ([], .crashed)
            | .chunk m :: rest2 =>
              if m ≠ [] ∧ utf8Decode m = none then ([], .crashed)
              else
                match receiveLoop decrypt rest2 with
                | (es, o) => (fileEvent decrypt d t :: es, o)
          else
            match receiveLoop decrypt rest with
            | (es, o) => (fileEvent decrypt d t :: es, o)
        else
          match receiveLoop decrypt rest with
          | (es, o) => (textEvent decrypt d :: es, o)
      | none =>
        match receiveLoop decrypt rest with
        | (es, o) => (textEvent decrypt d :: es, o)

/-- The frame the receive path reconstructs from one chunk, with the number
of bytes it consumes (always the whole chunk: the code keeps no receive
buffer, lines 135-166).  Shares `headerFilename` and `fileCipher` with
`receiveLoop`; the text branch hands the entire chunk to decryption. -/
def decodeChunk (d : List Nat) : Frame × Nat :=
  match utf8Decode d with
  | some t =>
    if fileTag.isPrefixOf t then (⟨.fileTransfer, headerFilename t, fileCipher d t⟩, d.length)
    else (⟨.textMessage, [], d⟩, d.length)
  | none => (⟨.textMessage, [], d⟩, d.length)

/-! ## Connection establishment (lines 102-114) -/

/-- Socket address family. -/
inductive AddrFamily
  | inet
  | inet6
  deriving DecidableEq, Repr

/-- Line 103: `family = AF_INET6 if (PEER_ADDRESS and ":" in PEER_ADDRESS)
else AF_INET` — `PEER_ADDRESS` may be absent (`None`) or empty (falsy). -/
def selectFamily (peerAddress : Option (List Nat)) : AddrFamily :=
  match peerAddress with
  | some a => if a ≠ [] ∧ 58 ∈ a then .inet6 else .inet
  | none => .inet

/-- Line 108: the wildcard bind host for a family: `'::'` for IPv6, `''`
(INADDR_ANY) for IPv4. -/
def wildcardHost (f : AddrFamily) : List Nat :=
  match f with
  | .inet6 => [58, 58]
  | .inet => []

/-- What the listener role sets up (lines 106-114). -/
structure ListenerSetup where
  family : AddrFamily
  host : List Nat
  port : Nat
  backlog : Nat
  acceptedConnections : Nat
  deriving DecidableEq, Repr

/-- Lines 106-114: bind the wildcard host of the selected family on the
given port, `listen(1)`, and call `accept()` exactly once — the loop never
returns to `accept`, so exactly one inbound connection is taken. -/
def establishListener (peerAddress : Option (List Nat)) (port : Nat) : ListenerSetup :=
  ⟨selectFamily peerAddress, wildcardHost (selectFamily peerAddress), port, 1, 1⟩

/-! ## Helper lemmas about the string primitives -/

theorem splitAtMost_length_pos (sep n : Nat) (s : List Nat) :
    1 ≤ (splitAtMost sep n s).length := by
  cases n with
  | zero => simp [splitAtMost]
  | succ n =>
    cases hf : splitFirst sep s with
    | none => simp [splitAtMost, hf]
    | some p =>
      cases p with
      | mk a b => simp [splitAtMost, hf]

theorem splitFirst_none_splitAtMost (sep n : Nat) (s : List Nat)
    (h : splitFirst sep s = none) : splitAtMost sep n s = [s] := by
  cases n with
  | zero => simp [splitAtMost]
  | succ n => simp [splitAtMost, h]

theorem splitAtMost_nil_eq (sep n : Nat) : splitAtMost sep n [] = [[]] := by
  cases n with
  | zero => simp [splitAtMost]
  | succ n => simp [splitAtMost, splitFirst]

theorem splitFirst_length (sep : Nat) :
    ∀ s a b : List Nat, splitFirst sep s = some (a, b) →
      s.length = a.length + 1 + b.length := by
  intro s
  induction s with
  | nil => intro a b h; simp [splitFirst] at h
  | cons c rest ih =>
    intro a b h
    by_cases hc : c = sep
    · rw [splitFirst, if_pos hc] at h
      obtain ⟨ha, hb⟩ := Prod.mk.injEq .. ▸ Option.some.injEq .. ▸ h
      simp at h
      obtain ⟨ha, hb⟩ := h
      subst ha
      subst hb
      simp
      omega
    · rw [splitFirst, if_neg hc] at h
      cases hr : splitFirst sep rest with
      | none => rw [hr] at h; simp at h
      | some p =>
        cases p with
        | mk a2 b2 =>
          rw [hr] at h
          simp at h
          obtain ⟨ha, hb⟩ := h
          subst ha
          subst hb
          have := ih a2 b2 hr
          simp
          omega

theorem splitAtMost_getD_zero (sep n m : Nat) (s : List Nat)
    (hn : 1 ≤ n) (hm : 1 ≤ m) :
    (splitAtMost sep n s).getD 0 [] = (splitAtMost sep m s).getD 0 [] := by
  obtain ⟨n2, rfl⟩ : ∃ k, n = k + 1 := ⟨n - 1, by omega⟩
  obtain ⟨m2, rfl⟩ : ∃ k, m = k + 1 := ⟨m - 1, by omega⟩
  cases hf : splitFirst sep s with
  | none => simp [splitAtMost, hf]
  | some p =>
    cases p with
    | mk a b => simp [splitAtMost, hf]

theorem utf8DecodeOne_ascii (b : Nat) (rest : List Nat) (hb : b ≤ 127) :
    utf8DecodeOne (b :: rest) = some (b, rest) := by
  rw [utf8DecodeOne, if_pos hb]

theorem utf8Decode_cons_ascii (b : Nat) (rest : List Nat) (hb : b ≤ 127) :
    utf8Decode (b :: rest) = (utf8Decode rest).map (fun cs => b :: cs) := by
  show utf8DecodeAux (b :: rest).length (b :: rest) = _
  rw [List.length_cons, utf8DecodeAux, utf8DecodeOne_ascii b rest hb]
  rfl

theorem utf8Decode_ascii_append (l1 l2 : List Nat) (h : ∀ b ∈ l1, b ≤ 127) :
    utf8Decode (l1 ++ l2) = (utf8Decode l2).map (fun cs => l1 ++ cs) := by
  induction l1 with
  | nil =>
    simp only [List.nil_append]
    cases utf8Decode l2 <;> simp
  | cons b bs ih =>
    have hb : b ≤ 127 := h b (by simp)
    have hbs : ∀ x ∈ bs, x ≤ 127 := fun x hx => h x (by simp [hx])
    simp only [List.cons_append]
    rw [utf8Decode_cons_ascii b (bs ++ l2) hb, ih hbs]
    cases utf8Decode l2 <;> simp

theorem utf8Decode_replicate (n b : Nat) (hb : b ≤ 127) :
    utf8Decode (List.replicate n b) = some (List.replicate n b) := by
  induction n with
  | zero => rfl
  | succ n ih =>
    rw [List.replicate_succ, utf8Decode_cons_ascii b (List.replicate n b) hb, ih]
    rfl

theorem pyPartition_append (sep : Nat) (l1 l2 : List Nat) (h : sep ∉ l1) :
    pyPartition sep (l1 ++ sep :: l2) = (l1, true, l2) := by
  induction l1 with
  | nil => simp [pyPartition]
  | cons c cs ih =>
    have hc : ¬c = sep := by
      intro e
      exact h (by simp [e])
    have hcs : sep ∉ cs := fun m => h (by simp [m])
    simp [pyPartition, hc, ih hcs]

theorem splitAtMost_getD_zero_nil (sep n : Nat) :
    (splitAtMost sep n [] : List (List Nat)).getD 0 [] = [] := by
  cases n with
  | zero => simp [splitAtMost]
  | succ n => simp [splitAtMost, splitFirst]

theorem receiveLoop_text_chunk (decrypt : List Nat → Option (List Nat)) (d : List Nat)
    (rest : List RecvResult) (h0 : d ≠ []) (h1 : isFileChunk d = false) :
    receiveLoop decrypt (.chunk d :: rest)
      = (textEvent decrypt d :: (receiveLoop decrypt rest).1, (receiveLoop decrypt rest).2) := by
  rw [receiveLoop, if_neg h0]
  cases hu : utf8Decode d with
  | none => simp
  | some t =>
    have hp : fileTag.isPrefixOf t = false := by
      rw [isFileChunk, hu] at h1
      exact h1
    simp [hp]

/-! ## Claim theorems -/

/-- C1: the round-trip `decode(encode(f)) = (f, len(encode(f)))` fails on the
code.  For the valid file-transfer frame with filename `"a:b"` (3 UTF-8
bytes, well within 255) and a 1-byte payload, the receive path reconstructs
filename `"a"` — the declared filename is truncated at its colon by
`header.split(":", 2)[1]` — so the decoded frame differs from the encoded
one even though all 11 bytes are consumed. -/
theorem roundtrip_fails_on_colon_filename :
    decodeChunk (encodeFrame ⟨.fileTransfer, [97, 58, 98], [90]⟩)
      = (⟨.fileTransfer, [97], [90]⟩, 11)
    ∧ decodeChunk (encodeFrame ⟨.fileTransfer, [97, 58, 98], [90]⟩)
      ≠ (⟨.fileTransfer, [97, 58, 98], [90]⟩,
         (encodeFrame ⟨.fileTransfer, [97, 58, 98], [90]⟩).length) := by
  decide

/-- C2: there is no receive buffer and no `Incomplete` result.  The encoding
of a text frame with payload `[90, 91]`, split after its first byte, is
processed as two independent one-byte text messages (each handed to
decryption immediately), while delivered whole it is one message; and a file
header arriving alone triggers exactly one fixed-size follow-up `recv`
(line 152) whose data is then discarded: the frame's cipher slice comes from
the first chunk only, which is empty after the header. -/
theorem split_encoding_processed_as_two_messages :
    receiveLoop (fun _ => none) [.chunk [90], .chunk [91]]
      = ([.decryptFailed, .decryptFailed], .blocked)
    ∧ receiveLoop (fun _ => none) [.chunk [90, 91]]
      = ([.decryptFailed], .blocked)
    ∧ receiveLoop (fun _ => none)
        [.chunk [70, 73, 76, 69, 58, 120, 58, 10], .chunk [65]]
      = ([.fileDecryptFailed [120]], .blocked) := by
  decide

/-- C3: no frame encoding carries a payload-length field.  A text frame is
sent as its raw ciphertext bytes unchanged — its encoding for a 1-byte
payload is a single byte, which cannot contain a 4-byte big-endian length
field — and a file frame's encoding is tag, filename, `":\n"` and raw
payload, again with no length field anywhere. -/
theorem wire_encoding_lacks_length_field :
    (∀ p : List Nat, encodeFrame ⟨.textMessage, [], p⟩ = p)
    ∧ (encodeFrame ⟨.textMessage, [], [7]⟩).length = 1
    ∧ (∀ fn p : List Nat, encodeFrame ⟨.fileTransfer, fn, p⟩
        = fileTag ++ utf8Encode fn ++ [58, 10] ++ p) :=
  ⟨fun _ => rfl, rfl, fun _ _ => rfl⟩

/-- C4: a decryption failure on one received frame is non-fatal.  For any
decryption oracle, a non-file chunk whose decryption fails produces only a
per-frame error event and the loop continues: a following chunk that
decrypts successfully is still displayed, and the remaining trace is
processed exactly as before — the session is not closed. -/
theorem crypto_error_nonfatal (decrypt : List Nat → Option (List Nat))
    (bad good p : List Nat) (rest : List RecvResult)
    (hb0 : bad ≠ []) (hb1 : isFileChunk bad = false) (hb2 : decrypt bad = none)
    (hg0 : good ≠ []) (hg1 : isFileChunk good = false) (hg2 : decrypt good = some p) :
    receiveLoop decrypt (.chunk bad :: .chunk good :: rest)
      = (.decryptFailed :: .textShown p :: (receiveLoop decrypt rest).1,
         (receiveLoop decrypt rest).2) := by
  rw [receiveLoop_text_chunk decrypt bad _ hb0 hb1,
      receiveLoop_text_chunk decrypt good rest hg0 hg1]
  simp [textEvent, hb2, hg2]

/-- Witness for C4 at concrete inputs: chunk `[3]` fails to decrypt, chunk
`[1]` then decrypts to `[9]` and is still shown. -/
theorem crypto_error_nonfatal_witness :
    (([3] : List Nat) ≠ [] ∧ isFileChunk [3] = false
      ∧ (fun d : List Nat => if d = [1] then some [9] else none) [3] = none)
    ∧ (([1] : List Nat) ≠ [] ∧ isFileChunk [1] = false
      ∧ (fun d : List Nat => if d = [1] then some [9] else none) [1] = some [9])
    ∧ receiveLoop (fun d : List Nat => if d = [1] then some [9] else none)
        [.chunk [3], .chunk [1]]
      = (.decryptFailed :: .textShown [9]
          :: (receiveLoop (fun d : List Nat => if d = [1] then some [9] else none) []).1,
         (receiveLoop (fun d : List Nat => if d = [1] then some [9] else none) []).2) :=
  ⟨⟨by decide, by decide, by decide⟩, ⟨by decide, by decide, by decide⟩,
    crypto_error_nonfatal (fun d : List Nat => if d = [1] then some [9] else none)
      [3] [1] [9] [] (by decide) (by decide) (by decide)
      (by decide) (by decide) (by decide)⟩

/-- C5: no sanitization occurs.  A peer-declared filename `"../secret"`
containing a path separator is passed verbatim to the file write
(`gpg --decrypt -o filename`): the saved-file event carries the raw
traversal name, which contains the separator code point 47. -/
theorem traversal_filename_written_verbatim :
    receiveLoop (fun _ => some [1])
        [.chunk [70, 73, 76, 69, 58, 46, 46, 47, 115, 101, 99, 114, 101, 116, 58, 10, 65, 66]]
      = ([.fileSaved [46, 46, 47, 115, 101, 99, 114, 101, 116] [1]], .blocked)
    ∧ 47 ∈ [46, 46, 47, 115, 101, 99, 114, 101, 116] := by
  decide

/-- C6: there is no payload maximum and no `PayloadTooLarge` error.  A file
chunk with an arbitrarily large payload (`n` bytes for every `n`, so in
particular far beyond 64 MiB) is decoded successfully into a frame carrying
the whole payload, and the session is never closed for size. -/
theorem no_payload_size_limit (n : Nat) :
    decodeChunk (encodeFrame ⟨.fileTransfer, [120], List.replicate n 65⟩)
      = (⟨.fileTransfer, [120], List.replicate n 65⟩, 8 + n) := by
  have he : encodeFrame ⟨.fileTransfer, [120], List.replicate n 65⟩
      = [70, 73, 76, 69, 58, 120, 58, 10] ++ List.replicate n 65 := by
    simp [encodeFrame, fileTag, utf8Encode, utf8EncodeChar]
  rw [he]
  have hd : utf8Decode ([70, 73, 76, 69, 58, 120, 58, 10] ++ List.replicate n 65)
      = some ([70, 73, 76, 69, 58, 120, 58, 10] ++ List.replicate n 65) := by
    rw [utf8Decode_ascii_append _ _ (by decide), utf8Decode_replicate n 65 (by decide)]
    rfl
  have hpre : fileTag.isPrefixOf ([70, 73, 76, 69, 58, 120, 58, 10] ++ List.replicate n 65)
      = true := by
    rw [List.isPrefixOf_iff_prefix]
    have he2 : ([70, 73, 76, 69, 58, 120, 58, 10] : List Nat) ++ List.replicate n 65
        = fileTag ++ ([120, 58, 10] ++ List.replicate n 65) := by
      simp [fileTag]
    rw [he2]
    exact List.prefix_append fileTag ([120, 58, 10] ++ List.replicate n 65)
  have hpart : pyPartition 10 ([70, 73, 76, 69, 58, 120, 58, 10] ++ List.replicate n 65)
      = ([70, 73, 76, 69, 58, 120, 58], true, List.replicate n 65) := by
    have he3 : ([70, 73, 76, 69, 58, 120, 58, 10] : List Nat) ++ List.replicate n 65
        = [70, 73, 76, 69, 58, 120, 58] ++ 10 :: List.replicate n 65 := by
      simp
    rw [he3]
    exact pyPartition_append 10 [70, 73, 76, 69, 58, 120, 58] (List.replicate n 65) (by decide)
  have hhdr : fileHeader ([70, 73, 76, 69, 58, 120, 58, 10] ++ List.replicate n 65)
      = [70, 73, 76, 69, 58, 120, 58] := by
    rw [fileHeader, hpart]
  have hname : headerFilename ([70, 73, 76, 69, 58, 120, 58, 10] ++ List.replicate n 65)
      = [120] := by
    rw [headerFilename, hhdr]
    decide
  have hciph : fileCipher ([70, 73, 76, 69, 58, 120, 58, 10] ++ List.replicate n 65)
      ([70, 73, 76, 69, 58, 120, 58, 10] ++ List.replicate n 65) = List.replicate n 65 := by
    rw [fileCipher, hhdr]
    show ([70, 73, 76, 69, 58, 120, 58, 10] ++ List.replicate n 65).drop
        ([70, 73, 76, 69, 58, 120, 58, 10] : List Nat).length = List.replicate n 65
    exact List.drop_left _ _
  rw [decodeChunk, hd]
  simp only [hpre, if_pos]
  rw [hname, hciph]
  simp
  omega

/-- C7: the IPv6 family is selected exactly when a peer address literal was
supplied and contains a colon (code point 58); the listener binds the
wildcard host of the selected family (`'::'` for IPv6, `''` for IPv4) on
the given port with backlog 1 and accepts exactly one connection. -/
theorem family_selection_and_single_accept (pa : Option (List Nat)) (port : Nat) :
    (selectFamily pa = .inet6 ↔ ∃ a, pa = some a ∧ 58 ∈ a)
    ∧ (establishListener pa port).host = wildcardHost (establishListener pa port).family
    ∧ (establishListener pa port).port = port
    ∧ (establishListener pa port).backlog = 1
    ∧ (establishListener pa port).acceptedConnections = 1 := by
  refine ⟨?_, rfl, rfl, rfl, rfl⟩
  cases pa with
  | none => simp [selectFamily]
  | some a =>
    by_cases h : a ≠ [] ∧ 58 ∈ a
    · simp only [selectFamily, if_pos h]
      simp [h.2]
    · simp only [selectFamily, if_neg h]
      constructor
      · intro e
        exact absurd e (by simp)
      · rintro ⟨b, hb, hm⟩
        obtain rfl : a = b := by injection hb
        exact absurd ⟨by rintro rfl; simp at hm, hm⟩ h

/-- C8: a chunk is dispatched as a file transfer exactly when it decodes as
UTF-8 and the decoded text starts with `"FILE:"`; any other chunk becomes a
text message whose entire byte content is handed to decryption; and in
particular the encoding of a text frame whose ciphertext starts with the
`"FILE:"` bytes is dispatched as a file transfer. -/
theorem file_dispatch_iff_utf8_tag (d : List Nat) (h : d ≠ []) :
    ((decodeChunk d).1.kind = .fileTransfer
        ↔ ∃ t, utf8Decode d = some t ∧ fileTag.isPrefixOf t)
    ∧ ((decodeChunk d).1.kind = .textMessage → (decodeChunk d).1.payload = d)
    ∧ (decodeChunk (encodeFrame ⟨.textMessage, [], [70, 73, 76, 69, 58, 33]⟩)).1.kind
        = .fileTransfer := by
  refine ⟨?_, ?_, by decide⟩
  · cases hu : utf8Decode d with
    | none => simp [decodeChunk, hu]
    | some t =>
      by_cases hp : fileTag.isPrefixOf t
      · simp only [decodeChunk, hu, if_pos hp]
        simp [List.isPrefixOf_iff_prefix.mp hp]
      · simp only [decodeChunk, hu, if_neg hp]
        simp only [false_iff, reduceCtorEq]
        rintro ⟨t2, ht2, hpre⟩
        obtain rfl : t = t2 := by injection ht2
        exact hp hpre
  · cases hu : utf8Decode d with
    | none => simp [decodeChunk, hu]
    | some t =>
      by_cases hp : fileTag.isPrefixOf t
      · simp [decodeChunk, hu, hp]
      · simp [decodeChunk, hu, hp]

/-- Witness for C8 at the concrete non-empty chunk `"FILE:!"`. -/
theorem file_dispatch_iff_utf8_tag_witness :
    ([70, 73, 76, 69, 58, 33] : List Nat) ≠ []
    ∧ (((decodeChunk [70, 73, 76, 69, 58, 33]).1.kind = .fileTransfer
        ↔ ∃ t, utf8Decode [70, 73, 76, 69, 58, 33] = some t ∧ fileTag.isPrefixOf t)
      ∧ ((decodeChunk [70, 73, 76, 69, 58, 33]).1.kind = .textMessage
          → (decodeChunk [70, 73, 76, 69, 58, 33]).1.payload = [70, 73, 76, 69, 58, 33])
      ∧ (decodeChunk (encodeFrame ⟨.textMessage, [], [70, 73, 76, 69, 58, 33]⟩)).1.kind
          = .fileTransfer) :=
  ⟨by decide, file_dispatch_iff_utf8_tag [70, 73, 76, 69, 58, 33] (by decide)⟩

/-- C9 counterexample: a receive error observed at the file branch's
follow-up `recv` (line 152, outside the `try`) does not close the connection
or exit the process — the uncaught exception only kills the receiver
thread. -/
theorem extra_recv_error_kills_thread_only :
    receiveLoop (fun _ => none) [.chunk [70, 73, 76, 69, 58, 120, 58, 10], .err]
      = ([], .crashed)
    ∧ Outcome.crashed ≠ .exited 0 := by
  decide

/-- C9 amended: when the main loop's `recv` (line 127) observes an error or
end-of-data, the receive path emits the corresponding notice, closes the
connection and terminates the whole process with exit code 0. -/
theorem main_recv_eof_or_error_exits (decrypt : List Nat → Option (List Nat))
    (rest : List RecvResult) :
    receiveLoop decrypt (.err :: rest) = ([.recvError], .exited 0)
    ∧ receiveLoop decrypt (.chunk [] :: rest) = ([.peerClosed], .exited 0) := by
  refine ⟨rfl, ?_⟩
  rw [receiveLoop]
  simp

/-- C10: the filename written to is the second colon-separated part of the
header when the header has at least two such parts, and the default
`"received_file"` otherwise — the code's `header.split(":", 2)[1]` agrees
with the second part of the unbounded colon split. -/
theorem filename_from_second_colon_part (t : List Nat) :
    headerFilename t =
      if 2 ≤ (splitAll 58 (fileHeader t)).length
      then (splitAll 58 (fileHeader t)).getD 1 []
      else receivedFile := by
  rw [headerFilename]
  generalize fileHeader t = s
  cases hf : splitFirst 58 s with
  | none =>
    rw [splitFirst_none_splitAtMost 58 2 s hf, splitAll,
        splitFirst_none_splitAtMost 58 s.length s hf]
  | some p =>
    obtain ⟨a, b⟩ := p
    have hlen := splitFirst_length 58 s a b hf
    have hlen2 : s.length = (a.length + b.length) + 1 := by omega
    have e1 : splitAtMost 58 2 s = a :: splitAtMost 58 1 b := by
      show splitAtMost 58 (1 + 1) s = _
      rw [splitAtMost, hf]
    have e2 : splitAll 58 s = a :: splitAtMost 58 (a.length + b.length) b := by
      rw [splitAll, hlen2, splitAtMost, hf]
    rw [e1, e2]
    have l1 : 2 ≤ (a :: splitAtMost 58 1 b).length := by
      have := splitAtMost_length_pos 58 1 b
      simp only [List.length_cons]
      omega
    have l2 : 2 ≤ (a :: splitAtMost 58 (a.length + b.length) b).length := by
      have := splitAtMost_length_pos 58 (a.length + b.length) b
      simp only [List.length_cons]
      omega
    rw [if_pos l1, if_pos l2]
    show (splitAtMost 58 1 b).getD 0 [] = (splitAtMost 58 (a.length + b.length) b).getD 0 []
    by_cases hb : b = []
    · subst hb
      rw [splitAtMost_getD_zero_nil, splitAtMost_getD_zero_nil]
    · have hb1 : 1 ≤ b.length := by
        cases b with
        | nil => exact absurd rfl hb
        | cons x xs => simp
      exact splitAtMost_getD_zero 58 1 (a.length + b.length) b (by omega) (by omega)

end SecureChat
